import Mathlib

/-!
Verification of the GitHub webhook code-review service (`code-reviewer`).

Shallow embedding of the four core components against which the claims are
settled:

* the signature-verification middleware `verifyGitHubSignature`
  (src/middleware/githubAuth.js),
* the webhook route `router.post('/github')` (src/routes/webhook.js),
* the unified-diff parser `parseDiffToChunks` / `createChunk` /
  `extractHunkContext` (src/services/githubService.js),
* the review orchestrator `reviewMultipleChunks` / `reviewCodeChunk`
  (src/services/deepSeekService.js).

JavaScript strings are modelled as Lean `String` / `List Char`; `null` and
`undefined` become `Option`; machine numbers are `Nat` with explicit
`% 2 ^ 32` where 32-bit wraparound matters (inside SHA-256).  Node library
primitives used by the source (`crypto.createHmac('sha256', …)`,
`crypto.timingSafeEqual`, `Buffer.from(·, 'utf8')`) are modelled by an
executable HMAC-SHA-256 over the UTF-8 bytes of the inputs.
-/

namespace CodeReviewer

/-! ## JavaScript string primitives -/

/-- Model of JavaScript `String.prototype.startsWith` on character lists. -/
def listStartsWith : List Char → List Char → Bool
  | [], _ => true
  | _ :: _, [] => false
  | p :: ps, c :: cs => p = c && listStartsWith ps cs

/-- Model of JavaScript `text.split('\n')`: split a character list at every
newline, keeping empty segments. -/
def splitNl : List Char → List (List Char)
  | [] => [[]]
  | c :: rest =>
    match splitNl rest with
    | [] => if c = '\n' then [[], []] else [[c]]
    | seg :: segs => if c = '\n' then [] :: seg :: segs else (c :: seg) :: segs

/-- Character class of the JavaScript regular-expression `\s`. -/
def jsWhitespaceChar (c : Char) : Bool :=
  c = ' ' || c = '\t' || c = '\n' || c = '\r' || c = '\x0b' || c = '\x0c' ||
  c = '\u00A0' || c = '\u1680' || ('\u2000' ≤ c && c ≤ '\u200A') ||
  c = '\u2028' || c = '\u2029' || c = '\u202F' || c = '\u205F' ||
  c = '\u3000' || c = '\uFEFF'

/-- JavaScript truthiness of a nullable string: `null`/`undefined` and the
empty string are falsy. -/
def jsFalsy : Option String → Bool
  | none => true
  | some s => s = ""

/-- Model of the JavaScript expression `a || b` on nullable strings (used for
`chunk.newFilePath || chunk.oldFilePath`): the left operand wins unless it is
falsy. -/
def jsOrStr (a b : Option String) : Option String :=
  if jsFalsy a then b else a

/-- Model of the JavaScript expression `a || d` where `a` is a nullable
number and `d` a number: `null` and `0` are falsy. -/
def jsOrNat (a : Option Nat) (d : Nat) : Nat :=
  match a with
  | none => d
  | some n => if n = 0 then d else n

/-- Model of JavaScript `haystack.includes(needle)` (contiguous substring
test) on character lists. -/
def listIncludes (haystack needle : List Char) : Bool :=
  (List.range (haystack.length + 1)).any
    (fun i => listStartsWith needle (haystack.drop i))

/-- Model of JavaScript `String.prototype.includes`. -/
def strIncludes (haystack needle : String) : Bool :=
  listIncludes haystack.data needle.data

/-! ## UTF-8 byte model

`Buffer.from(s, 'utf8')` turns a JavaScript string into its UTF-8 bytes;
`crypto` operates on those bytes.  We model bytes as `Nat` values below 256. -/

/-- UTF-8 encoding of a single character. -/
def utf8EncodeChar (c : Char) : List Nat :=
  let n := c.toNat
  if n < 128 then [n]
  else if n < 2048 then
    [192 ||| (n >>> 6), 128 ||| (n &&& 63)]
  else if n < 65536 then
    [224 ||| (n >>> 12), 128 ||| ((n >>> 6) &&& 63), 128 ||| (n &&& 63)]
  else
    [240 ||| (n >>> 18), 128 ||| ((n >>> 12) &&& 63),
     128 ||| ((n >>> 6) &&& 63), 128 ||| (n &&& 63)]

/-- UTF-8 bytes of a string (model of `Buffer.from(s, 'utf8')`). -/
def utf8Bytes (s : String) : List Nat :=
  s.data.flatMap utf8EncodeChar

/-- Byte length of a string seen as a UTF-8 buffer
(model of `Buffer.from(s, 'utf8').length`). -/
def byteLen (s : String) : Nat :=
  (utf8Bytes s).length

/-! ## SHA-256 and HMAC-SHA-256

Model of Node's `crypto.createHmac('sha256', secret).update(body).digest('hex')`
used by the verifier, implemented from the FIPS 180-4 / RFC 2104 algorithms. -/

/-- 32-bit right rotation. -/
def rotr32 (x n : Nat) : Nat :=
  ((x >>> n) ||| (x <<< (32 - n))) % 4294967296

/-- The sixty-four SHA-256 round constants, written in decimal. -/
def sha256K : List Nat :=
  [1116352408, 1899447441, 3049323471, 3921009573,
   961987163, 1508970993, 2453635748, 2870763221,
   3624381080, 310598401, 607225278, 1426881987,
   1925078388, 2162078206, 2614888103, 3248222580,
   3835390401, 4022224774, 264347078, 604807628,
   770255983, 1249150122, 1555081692, 1996064986,
   2554220882, 2821834349, 2952996808, 3210313671,
   3336571891, 3584528711, 113926993, 338241895,
   666307205, 773529912, 1294757372, 1396182291,
   1695183700, 1986661051, 2177026350, 2456956037,
   2730485921, 2820302411, 3259730800, 3345764771,
   3516065817, 3600352804, 4094571909, 275423344,
   430227734, 506948616, 659060556, 883997877,
   958139571, 1322822218, 1537002063, 1747873779,
   1955562222, 2024104815, 2227730452, 2361852424,
   2428436474, 2756734187, 3204031479, 3329325298]

/-- The eight 32-bit words of a SHA-256 state. -/
structure Sha256State where
  a : Nat
  b : Nat
  c : Nat
  d : Nat
  e : Nat
  f : Nat
  g : Nat
  h : Nat

/-- Initial SHA-256 state, written in decimal. -/
def sha256Init : Sha256State :=
  ⟨1779033703, 3144134277, 1013904242, 2773480762,
   1359893119, 2600822924, 528734635, 1541459225⟩

/-- The first sixteen 32-bit big-endian words of a 64-byte block. -/
def blockWords : List Nat → List Nat
  | b0 :: b1 :: b2 :: b3 :: rest =>
    (b0 * 16777216 + b1 * 65536 + b2 * 256 + b3) :: blockWords rest
  | _ => []

/-- SHA-256 message schedule: extend sixteen words to sixty-four. -/
def sha256Schedule (block : List Nat) : Array Nat :=
  (List.range 48).foldl
    (fun w i =>
      let j := i + 16
      let w15 := w.getD (j - 15) 0
      let w2 := w.getD (j - 2) 0
      let s0 := rotr32 w15 7 ^^^ rotr32 w15 18 ^^^ (w15 >>> 3)
      let s1 := rotr32 w2 17 ^^^ rotr32 w2 19 ^^^ (w2 >>> 10)
      w.push ((w.getD (j - 16) 0 + s0 + w.getD (j - 7) 0 + s1) % 4294967296))
    (blockWords block).toArray

/-- SHA-256 compression of one 64-byte block into the running state. -/
def sha256Compress (st : Sha256State) (block : List Nat) : Sha256State :=
  let w := sha256Schedule block
  let r := (List.range 64).foldl
    (fun (t : Sha256State) i =>
      let s1 := rotr32 t.e 6 ^^^ rotr32 t.e 11 ^^^ rotr32 t.e 25
      let ch := (t.e &&& t.f) ^^^ ((t.e ^^^ 4294967295) &&& t.g)
      let temp1 := (t.h + s1 + ch + sha256K.getD i 0 + w.getD i 0) % 4294967296
      let s0 := rotr32 t.a 2 ^^^ rotr32 t.a 13 ^^^ rotr32 t.a 22
      let maj := (t.a &&& t.b) ^^^ (t.a &&& t.c) ^^^ (t.b &&& t.c)
      let temp2 := (s0 + maj) % 4294967296
      ⟨(temp1 + temp2) % 4294967296, t.a, t.b, t.c,
       (t.d + temp1) % 4294967296, t.e, t.f, t.g⟩)
    st
  ⟨(st.a + r.a) % 4294967296, (st.b + r.b) % 4294967296,
   (st.c + r.c) % 4294967296, (st.d + r.d) % 4294967296,
   (st.e + r.e) % 4294967296, (st.f + r.f) % 4294967296,
   (st.g + r.g) % 4294967296, (st.h + r.h) % 4294967296⟩

/-- Big-endian bytes of a 32-bit word. -/
def word4Bytes (w : Nat) : List Nat :=
  [w / 16777216 % 256, w / 65536 % 256, w / 256 % 256, w % 256]

/-- Big-endian bytes of the 64-bit message bit length. -/
def len8Bytes (n : Nat) : List Nat :=
  [n >>> 56 % 256, n >>> 48 % 256, n >>> 40 % 256, n >>> 32 % 256,
   n >>> 24 % 256, n >>> 16 % 256, n >>> 8 % 256, n % 256]

/-- SHA-256 of a byte sequence. -/
def sha256Bytes (msg : List Nat) : List Nat :=
  let len := msg.length
  let padZeros := (64 - (len + 9) % 64) % 64
  let padded := msg ++ [128] ++ List.replicate padZeros 0 ++ len8Bytes (8 * len)
  let final := (List.range (padded.length / 64)).foldl
    (fun st b => sha256Compress st ((padded.drop (64 * b)).take 64))
    sha256Init
  word4Bytes final.a ++ word4Bytes final.b ++ word4Bytes final.c ++
  word4Bytes final.d ++ word4Bytes final.e ++ word4Bytes final.f ++
  word4Bytes final.g ++ word4Bytes final.h

/-- HMAC-SHA-256 over byte sequences (RFC 2104, block size 64). -/
def hmacSha256 (key msg : List Nat) : List Nat :=
  let k0 := if key.length > 64 then sha256Bytes key else key
  let k := k0 ++ List.replicate (64 - k0.length) 0
  let ipad := k.map (fun b => b ^^^ 54)
  let opad := k.map (fun b => b ^^^ 92)
  sha256Bytes (opad ++ sha256Bytes (ipad ++ msg))

/-- Lowercase hexadecimal digit. -/
def hexDigitChar (n : Nat) : Char :=
  if n = 0 then '0' else if n = 1 then '1' else if n = 2 then '2'
  else if n = 3 then '3' else if n = 4 then '4' else if n = 5 then '5'
  else if n = 6 then '6' else if n = 7 then '7' else if n = 8 then '8'
  else if n = 9 then '9' else if n = 10 then 'a' else if n = 11 then 'b'
  else if n = 12 then 'c' else if n = 13 then 'd' else if n = 14 then 'e'
  else if n = 15 then 'f' else '0'

/-- Two hex digits of one byte. -/
def hexOfByte (b : Nat) : List Char :=
  [hexDigitChar (b / 16), hexDigitChar (b % 16)]

/-- Hex string of a byte sequence (model of `.digest('hex')`). -/
def bytesToHex (bs : List Nat) : String :=
  String.mk (bs.flatMap hexOfByte)

/-- Model of
`crypto.createHmac('sha256', secret).update(body).digest('hex')`. -/
def hmacSha256Hex (secret body : String) : String :=
  bytesToHex (hmacSha256 (utf8Bytes secret) (utf8Bytes body))

/-! ## Signature verifier (src/middleware/githubAuth.js) -/

/-- Outcome of the `verifyGitHubSignature` middleware: it either calls
`next()` (the request proceeds to the route), or sends a 401 response, or —
when the verification code throws — sends a 500 response from its `catch`
block. -/
inductive VerifyResult
  | next
  | unauthorized (message : String)
  | serverError (message : String)
deriving DecidableEq, Repr

/-- Model of `verifyGitHubSignature(req, res, next)`:
`secret` is `process.env.GITHUB_WEBHOOK_SECRET`, `signature` the
`x-hub-signature-256` header, `body` the raw request body.  `Buffer.from`
and `crypto.timingSafeEqual` operate on UTF-8 bytes; `timingSafeEqual`
throws when the two buffers differ in byte length, which the `catch`
block converts into a 500 response. -/
def verifyGitHubSignature (secret signature : Option String) (body : String) :
    VerifyResult :=
  if jsFalsy secret then
    -- no secret configured: skip verification (development), call next()
    .next
  else if jsFalsy signature then
    .unauthorized "缺少GitHub签名"
  else
    let sec := secret.getD ""
    let sig := signature.getD ""
    let expected := "sha256=" ++ hmacSha256Hex sec body
    if byteLen sig ≠ byteLen expected then
      -- timingSafeEqual throws on length mismatch; caught → 500
      .serverError "签名验证失败"
    else if sig = expected then .next
    else .unauthorized "GitHub签名验证失败"

/-! ## Webhook route (src/routes/webhook.js) -/

/-- The fields of the decoded webhook payload that the route and the
dispatcher read. -/
structure Payload where
  zen : Option String
  action : Option String
deriving DecidableEq, Repr

/-- What `router.post('/github')` does with a request: hand it to
`handlePullRequestEvent`, answer the ping, acknowledge an unknown event
type, or — when `JSON.parse` throws — answer 500 from the `catch`. -/
inductive RouteOutcome
  | pullRequestDispatch (payload : Payload)
  | pingResponse (zen : Option String)
  | unhandledResponse (eventType : Option String)
  | parseFailure
deriving DecidableEq, Repr

set_option linter.unusedVariables false in
/-- Model of the `router.post('/github', async (req, res) => …)` handler as
wired in the source: the `verifyGitHubSignature` middleware is NOT applied to
the route (its `require` is commented out), so the handler runs on every
request and the `signature` header is never consulted.  `body` is the result
of `JSON.parse(req.body)` (`none` models a parse exception, caught → 500). -/
def webhookGithubRoute (eventType signature : Option String)
    (body : Option Payload) : RouteOutcome :=
  match body with
  | none => .parseFailure
  | some payload =>
    match eventType with
    | some "pull_request" => .pullRequestDispatch payload
    | some "ping" => .pingResponse payload.zen
    | et => .unhandledResponse et

/-! ## Diff parser (src/services/githubService.js)

`parseDiffToChunks` walks the diff text line by line, tracking the current
file, the current hunk and the running old/new line counters, and flushes a
Chunk for each completed (file, hunk) pair.  The embedding mirrors the
JavaScript `for` loop as a fold of `parseStep` over the split lines. -/

/-- Per-file metadata accumulated by the parser (`currentFile`). -/
structure FileInfo where
  oldFilePath : Option String
  newFilePath : Option String
  fileStatus : String
deriving DecidableEq, Repr

/-- One parsed change line (`{type, content, oldLineNumber, newLineNumber}`);
`type` is one of the JavaScript strings `"add"`, `"del"`, `"normal"`. -/
structure Change where
  type : String
  content : String
  oldLineNumber : Option Nat
  newLineNumber : Option Nat
deriving DecidableEq, Repr

/-- A hunk under construction (`currentHunk`). -/
structure Hunk where
  oldStartLine : Nat
  oldLines : Nat
  newStartLine : Nat
  newLines : Nat
  changes : List Change
deriving DecidableEq, Repr

/-- One element of the flattened per-change view produced by `createChunk`:
the original change fields plus the derived `lineNumber`. -/
structure FlatChange where
  type : String
  lineNumber : Nat
  content : String
  oldLineNumber : Option Nat
  newLineNumber : Option Nat
deriving DecidableEq, Repr

/-- The derived context summary produced by `extractHunkContext`. -/
structure HunkContext where
  addedLines : List String
  deletedLines : List String
  contextLines : List String
  totalChanges : Nat
  isSignificant : Bool
deriving DecidableEq, Repr

/-- One AI review comment (`{type, content, severity, line, path}`). -/
structure AIComment where
  type : String
  content : String
  severity : String
  line : Nat
  path : Option String
deriving DecidableEq, Repr

/-- The externally visible unit of review produced by `createChunk`. -/
structure Chunk where
  oldFilePath : Option String
  newFilePath : Option String
  fileStatus : String
  oldStartLine : Nat
  oldLines : Nat
  newStartLine : Nat
  newLines : Nat
  changes : List FlatChange
  context : HunkContext
  aiComments : List AIComment
  reviewStatus : String
deriving DecidableEq, Repr

/-- Model of `extractHunkContext(changes)`. -/
def extractHunkContext (changes : List Change) : HunkContext :=
  let addedLines := (changes.filter (fun c => c.type == "add")).map (·.content)
  let deletedLines := (changes.filter (fun c => c.type == "del")).map (·.content)
  let contextLines :=
    (changes.filter (fun c => c.type == "normal")).map (·.content)
  { addedLines := addedLines
    deletedLines := deletedLines
    contextLines := contextLines
    totalChanges := addedLines.length + deletedLines.length
    isSignificant := decide (addedLines.length + deletedLines.length > 5) }

/-- The flattened view of one change, at position `idx` of its hunk.  The
`lineNumber` is the JavaScript expression
`change.newLineNumber || change.oldLineNumber || (hunk.newStartLine + index)`,
so a zero line number falls through exactly like `null` does. -/
def mkFlatChange (newStartLine idx : Nat) (c : Change) : FlatChange :=
  { type := c.type
    lineNumber := jsOrNat c.newLineNumber (jsOrNat c.oldLineNumber (newStartLine + idx))
    content := c.content
    oldLineNumber := c.oldLineNumber
    newLineNumber := c.newLineNumber }

/-- Model of `hunk.changes.map((change, index) => …)` inside `createChunk`,
carrying the running index explicitly. -/
def flattenChanges (newStartLine : Nat) : Nat → List Change → List FlatChange
  | _, [] => []
  | idx, c :: rest =>
    mkFlatChange newStartLine idx c :: flattenChanges newStartLine (idx + 1) rest

/-- Model of `createChunk(file, hunk)`. -/
def createChunk (file : FileInfo) (hunk : Hunk) : Chunk :=
  { oldFilePath := file.oldFilePath
    newFilePath := file.newFilePath
    fileStatus := file.fileStatus
    oldStartLine := hunk.oldStartLine
    oldLines := hunk.oldLines
    newStartLine := hunk.newStartLine
    newLines := hunk.newLines
    changes := flattenChanges hunk.newStartLine 0 hunk.changes
    context := extractHunkContext hunk.changes
    aiComments := []
    reviewStatus := "pending" }

/-! ### The hunk-header regular expression

`/^@@\s+-(\d+)(?:,(\d+))?\s+\+(\d+)(?:,(\d+))?\s+@@/` is modelled by a
deterministic scanner: the quantifiers never need real backtracking because
digits, commas and whitespace are disjoint character classes. -/

/-- Drop all leading `\s` characters. -/
def dropJsWs : List Char → List Char
  | [] => []
  | c :: rest => if jsWhitespaceChar c then dropJsWs rest else c :: rest

/-- Require at least one `\s` character, then drop the whole run (`\s+`). -/
def skipJsWs1 : List Char → Option (List Char)
  | [] => none
  | c :: rest => if jsWhitespaceChar c then some (dropJsWs rest) else none

/-- Accumulate a maximal run of decimal digits. -/
def takeDigitsAux (acc : Nat) : List Char → Nat × List Char
  | [] => (acc, [])
  | c :: rest =>
    if c.isDigit then takeDigitsAux (acc * 10 + (c.toNat - 48)) rest
    else (acc, c :: rest)

/-- Require a nonempty run of digits (`\d+`) and return its decimal value. -/
def takeDigits1 : List Char → Option (Nat × List Char)
  | [] => none
  | c :: rest =>
    if c.isDigit then some (takeDigitsAux (c.toNat - 48) rest) else none

/-- Require a specific literal character. -/
def expectChar (target : Char) : List Char → Option (List Char)
  | [] => none
  | c :: rest => if c = target then some rest else none

/-- The optional `(?:,(\d+))?` group: a comma must be followed by digits
(otherwise the whole match fails, since `\s+` cannot consume the comma);
with no comma the group is skipped and the count stays undefined. -/
def takeOptCount (cs : List Char) : Option (Option Nat × List Char) :=
  match cs with
  | ',' :: rest =>
    match takeDigits1 rest with
    | some (n, r) => some (some n, r)
    | none => none
  | _ => some (none, cs)

/-- Model of `line.match(/^@@\s+-(\d+)(?:,(\d+))?\s+\+(\d+)(?:,(\d+))?\s+@@/)`,
returning `(oldStart, oldCount, newStart, newCount)` with the omitted counts
already defaulted to 1 as in `parseInt(hunkMatch[2] || '1')`. -/
def hunkHeaderMatch (line : List Char) : Option (Nat × Nat × Nat × Nat) :=
  match line with
  | '@' :: '@' :: r0 => do
    let r1 ← skipJsWs1 r0
    let r2 ← expectChar '-' r1
    let (oldStart, r3) ← takeDigits1 r2
    let (oldCount, r4) ← takeOptCount r3
    let r5 ← skipJsWs1 r4
    let r6 ← expectChar '+' r5
    let (newStart, r7) ← takeDigits1 r6
    let (newCount, r8) ← takeOptCount r7
    let r9 ← skipJsWs1 r8
    let r10 ← expectChar '@' r9
    let _ ← expectChar '@' r10
    pure (oldStart, oldCount.getD 1, newStart, newCount.getD 1)
  | _ => none

/-! ### The line loop -/

/-- The mutable state of the parsing loop. -/
structure ParseState where
  chunks : List Chunk
  currentFile : Option FileInfo
  currentHunk : Option Hunk
  oldLineNumber : Nat
  newLineNumber : Nat
deriving DecidableEq, Repr

/-- Model of the `if (currentHunk && currentFile) chunks.push(createChunk(…))`
flush. -/
def flushChunks (s : ParseState) : List Chunk :=
  match s.currentHunk, s.currentFile with
  | some h, some f => s.chunks ++ [createChunk f h]
  | _, _ => s.chunks

/-- One iteration of the parsing loop of `parseDiffToChunks`, mirroring the
JavaScript `if / else if` chain on the current line. -/
def parseStep (s : ParseState) (line : List Char) : ParseState :=
  if listStartsWith ("diff --git ".data) line then
    { chunks := flushChunks s
      currentFile := some ⟨none, none, "modified"⟩
      currentHunk := none
      oldLineNumber := s.oldLineNumber
      newLineNumber := s.newLineNumber }
  else if listStartsWith ("--- ".data) line then
    match s.currentFile with
    | none => s
    | some f =>
      let path := line.drop 4
      if path = "/dev/null".data then
        { s with currentFile := some { f with oldFilePath := none, fileStatus := "added" } }
      else if listStartsWith ("a/".data) path then
        { s with currentFile := some { f with oldFilePath := some (String.mk (path.drop 2)) } }
      else
        { s with currentFile := some { f with oldFilePath := some (String.mk path) } }
  else if listStartsWith ("+++ ".data) line then
    match s.currentFile with
    | none => s
    | some f =>
      let path := line.drop 4
      if path = "/dev/null".data then
        { s with currentFile := some { f with newFilePath := none, fileStatus := "deleted" } }
      else if listStartsWith ("b/".data) path then
        { s with currentFile := some { f with newFilePath := some (String.mk (path.drop 2)) } }
      else
        { s with currentFile := some { f with newFilePath := some (String.mk path) } }
  else if listStartsWith ("@@".data) line then
    let flushed := flushChunks s
    match hunkHeaderMatch line with
    | some (oldStart, oldCount, newStart, newCount) =>
      { chunks := flushed
        currentFile := s.currentFile
        currentHunk := some ⟨oldStart, oldCount, newStart, newCount, []⟩
        oldLineNumber := oldStart
        newLineNumber := newStart }
    | none =>
      -- pattern failed: the flush above already happened, but currentHunk
      -- and the counters are left untouched (the previous hunk stays open)
      { s with chunks := flushed }
  else
    match s.currentHunk with
    | none => s
    | some h =>
      if listStartsWith ['+'] line || listStartsWith ['-'] line ||
          listStartsWith [' '] line then
        let type :=
          if listStartsWith ['+'] line then "add"
          else if listStartsWith ['-'] line then "del"
          else "normal"
        let change : Change :=
          { type := type
            content := String.mk (line.drop 1)
            oldLineNumber := if type ≠ "add" then some s.oldLineNumber else none
            newLineNumber := if type ≠ "del" then some s.newLineNumber else none }
        { s with
          currentHunk := some { h with changes := h.changes ++ [change] }
          oldLineNumber :=
            if type ≠ "add" then s.oldLineNumber + 1 else s.oldLineNumber
          newLineNumber :=
            if type ≠ "del" then s.newLineNumber + 1 else s.newLineNumber }
      else s

/-- Model of `parseDiffToChunks(diffText)`: split on newlines, fold the loop
body over the lines, then flush the last hunk. -/
def parseDiffToChunks (diffText : String) : List Chunk :=
  let lines := splitNl diffText.data
  let final := lines.foldl parseStep ⟨[], none, none, 0, 0⟩
  flushChunks final

/-- The state produced by the content branch of `parseStep` when it records
`change` into the open hunk `h` and advances the counters by `dOld`/`dNew`. -/
def recordChange (s : ParseState) (h : Hunk) (c : Change)
    (dOld dNew : Nat) : ParseState :=
  { s with
    currentHunk := some { h with changes := h.changes ++ [c] }
    oldLineNumber := s.oldLineNumber + dOld
    newLineNumber := s.newLineNumber + dNew }

/-- The added change recorded for a `+` line. -/
def addedChange (s : ParseState) (line : List Char) : Change :=
  ⟨"add", String.mk (line.drop 1), none, some s.newLineNumber⟩

/-- The deleted change recorded for a `-` line. -/
def deletedChange (s : ParseState) (line : List Char) : Change :=
  ⟨"del", String.mk (line.drop 1), some s.oldLineNumber, none⟩

/-- The context change recorded for a space line. -/
def contextChange (s : ParseState) (line : List Char) : Change :=
  ⟨"normal", String.mk (line.drop 1), some s.oldLineNumber, some s.newLineNumber⟩

/-! ## Concrete diff inputs used by the parser claims -/

/-- Scenario A of the spec: one added file with a single all-added 3-line
hunk. -/
def diffScenarioA : String :=
  "diff --git a/foo.txt b/foo.txt\n--- /dev/null\n+++ b/foo.txt\n@@ -0,0 +1,3 @@\n+l1\n+l2\n+l3"

/-- A diff containing a malformed hunk header (`@@ bad @@`) between content
lines. -/
def diffMalformedHeader : String :=
  "diff --git a/f b/f\n--- a/f\n+++ b/f\n@@ -1 +1 @@\n+x\n@@ bad @@\n+y"

/-- The same diff with the malformed header line removed. -/
def diffMalformedHeaderSkipped : String :=
  "diff --git a/f b/f\n--- a/f\n+++ b/f\n@@ -1 +1 @@\n+x\n+y"

/-- A diff whose hunk header declares `+0`, so the running new-line counter
is zero when the context line is recorded. -/
def diffZeroNewStart : String :=
  "diff --git a/f b/f\n--- a/f\n+++ b/f\n@@ -5 +0 @@\n x"

/-- A diff whose hunk body contains a line starting with an ordinary
character (`x`) between two context lines. -/
def diffStrayLine : String :=
  "diff --git a/f b/f\n--- a/f\n+++ b/f\n@@ -1,2 +1,2 @@\n a\nx\n b"

/-- Test fixture: a file record for step-level witnesses. -/
def wFile : FileInfo := ⟨some "f", some "f", "modified"⟩

/-- Test fixture: an open hunk with one recorded change. -/
def wHunk : Hunk := ⟨1, 1, 1, 1, [⟨"add", "x", none, some 1⟩]⟩

/-- Test fixture: a parse state with an open file and hunk. -/
def wState : ParseState := ⟨[], some wFile, some wHunk, 3, 7⟩

/-! ## Parser invariants: line-number monotonicity and the flattened view -/

/-- The non-null old line numbers of a change list, in order. -/
def oldSeq (l : List Change) : List Nat := l.filterMap Change.oldLineNumber

/-- The non-null new line numbers of a change list, in order. -/
def newSeq (l : List Change) : List Nat := l.filterMap Change.newLineNumber

/-- The flattened-view property claimed for every parsed chunk: each emitted
`lineNumber` is the JavaScript `||`-fallback of the stored `newLineNumber`,
`oldLineNumber` and the positional default. -/
def ChunkFlatOk (c : Chunk) : Prop :=
  ∀ (i : Nat) (fc : FlatChange), c.changes.get? i = some fc →
    fc.lineNumber =
      jsOrNat fc.newLineNumber (jsOrNat fc.oldLineNumber (c.newStartLine + i))

/-- Strict monotonicity of both line-number sequences of a chunk. -/
def ChunkMono (c : Chunk) : Prop :=
  List.Chain' (· < ·) (c.changes.filterMap FlatChange.oldLineNumber) ∧
  List.Chain' (· < ·) (c.changes.filterMap FlatChange.newLineNumber)

/-- The chunk properties maintained by the parser. -/
def ChunkOk (c : Chunk) : Prop := ChunkFlatOk c ∧ ChunkMono c

/-- Invariant of an open hunk relative to the running counters: both
line-number sequences are strictly increasing and bounded by the counters. -/
def HunkOk (h : Hunk) (o n : Nat) : Prop :=
  (List.Chain' (· < ·) (oldSeq h.changes) ∧ ∀ v ∈ oldSeq h.changes, v < o) ∧
  (List.Chain' (· < ·) (newSeq h.changes) ∧ ∀ v ∈ newSeq h.changes, v < n)

/-- Invariant of the whole parser state. -/
def StateOk (s : ParseState) : Prop :=
  (∀ c ∈ s.chunks, ChunkOk c) ∧
  ∀ h, s.currentHunk = some h → HunkOk h s.oldLineNumber s.newLineNumber

/-- The flattened change at index 0 of the `@@ -5 +0 @@` example. -/
def wFlatC7 : FlatChange := ⟨"normal", 5, "x", some 5, some 0⟩

/-! ## Review orchestrator (src/services/deepSeekService.js)

`reviewMultipleChunks` slices the chunk list into batches of three, issues
the per-chunk review calls of one batch concurrently, waits for all of them
to settle (`Promise.allSettled`), and appends one `{chunk, review}` result
per settled call, in batch position order.  The per-chunk call
`reviewCodeChunk(chunk, prContext)` is modelled by a function
`call : Chunk → Settled Review` (the `prContext` is closed over); the
inter-batch one-second delay has no observable effect on the results. -/

/-- Settlement of one promise, as observed by `Promise.allSettled`:
`fulfilled` with a value or `rejected` with the reason message. -/
inductive Settled (α : Type) where
  | fulfilled (value : α)
  | rejected (reason : String)
deriving DecidableEq, Repr

/-- The review outcome object built by `reviewCodeChunk` (fields absent in
the JavaScript object are `none` / `[]`). -/
structure Review where
  success : Bool
  error : Option String
  aiComments : List AIComment
  overallRating : Option String
  suggestions : List String
  risks : List String
deriving DecidableEq, Repr

/-- The failure outcome `{success: false, error: message, aiComments: []}`. -/
def failureReview (message : String) : Review :=
  ⟨false, some message, [], none, [], []⟩

/-- The structured result of `parseAIResponse`. -/
structure ParsedReview where
  comments : List AIComment
  suggestions : List String
  risks : List String
  rating : String
deriving DecidableEq, Repr

/-- Leading run length of JavaScript `\s` characters. -/
def countJsWs : List Char → Nat
  | [] => 0
  | c :: rest => if jsWhitespaceChar c then countJsWs rest + 1 else 0

/-- Try to match `#{k}\s+` at the head of the text, returning the matched
length. -/
def tryHashRun (k : Nat) (cs : List Char) : Option Nat :=
  if listStartsWith (List.replicate k '#') cs then
    let w := countJsWs (cs.drop k)
    if 1 ≤ w then some (k + w) else none
  else none

/-- Match of the split regular expression `/#{1,3}\s+/` at the head of the
text: the greedy quantifier prefers three hashes, then two, then one. -/
def matchHashRun (cs : List Char) : Option Nat :=
  match tryHashRun 3 cs with
  | some m => some m
  | none =>
    match tryHashRun 2 cs with
    | some m => some m
    | none => tryHashRun 1 cs

/-- Model of `aiResponse.split(/#{1,3}\s+/)`, scanning left to right with a
fuel argument bounded by the text length. -/
def splitHashRunsAux : Nat → List Char → List (List Char)
  | 0, _ => [[]]
  | _ + 1, [] => [[]]
  | fuel + 1, c :: rest =>
    match matchHashRun (c :: rest) with
    | some m => [] :: splitHashRunsAux fuel ((c :: rest).drop m)
    | none =>
      match splitHashRunsAux fuel rest with
      | [] => [[c]]
      | seg :: segs => (c :: seg) :: segs

/-- Model of `aiResponse.split(/#{1,3}\s+/)` on strings. -/
def splitHashRuns (text : String) : List String :=
  (splitHashRunsAux text.data.length text.data).map String.mk

/-- One `sections.forEach` iteration of `parseAIResponse`, threading the
accumulated `(overallRating, suggestions, risks)`. -/
def parseAIFold (acc : String × List String × List String) (sec : String) :
    String × List String × List String :=
  let content := sec.trim
  let rating :=
    if strIncludes content "总体评价" || strIncludes content "整体评估" then
      if strIncludes content "需要改进" || strIncludes content "存在问题" then
        if strIncludes content "存在问题" then "needs_attention"
        else "needs_improvement"
      else acc.1
    else acc.1
  let suggestions :=
    if strIncludes content "具体建议" || strIncludes content "建议" then
      acc.2.1 ++ [content]
    else acc.2.1
  let risks :=
    if strIncludes content "风险" || strIncludes content "安全" then
      acc.2.2 ++ [content]
    else acc.2.2
  (rating, suggestions, risks)

/-- Model of `parseAIResponse(aiResponse, chunk)`. -/
def parseAIResponse (aiResponse : String) (chunk : Chunk) : ParsedReview :=
  let sections := splitHashRuns aiResponse
  let res := sections.foldl parseAIFold ("good", [], [])
  let severity :=
    if res.1 = "needs_attention" then "high"
    else if res.1 = "needs_improvement" then "medium"
    else "low"
  { comments := [⟨"review", aiResponse, severity, chunk.newStartLine,
      jsOrStr chunk.newFilePath chunk.oldFilePath⟩]
    suggestions := res.2.1
    risks := res.2.2
    rating := res.1 }

/-- Model of `reviewCodeChunk(chunk, prContext)`: a missing API key
short-circuits to the failure outcome, a thrown/failed API call is caught
and converted to the failure outcome, and a successful call is structured
through `parseAIResponse`.  The network call itself is the `apiCall`
argument (the response text or the error message). -/
def reviewCodeChunk (apiKey : Option String) (apiCall : Except String String)
    (chunk : Chunk) : Review :=
  if jsFalsy apiKey then failureReview "DeepSeek API Key未配置"
  else
    match apiCall with
    | .error message => failureReview message
    | .ok aiResponse =>
      let parsed := parseAIResponse aiResponse chunk
      { success := true
        error := none
        aiComments := parsed.comments
        overallRating := some parsed.rating
        suggestions := parsed.suggestions
        risks := parsed.risks }

/-- One element of the orchestrator result sequence. -/
structure ChunkResult where
  chunk : Chunk
  review : Review
deriving DecidableEq, Repr

/-- The `batchResults.forEach` conversion: a fulfilled call keeps its value,
a rejected call is converted to
`{success: false, error: reason.message, aiComments: []}`. -/
def settleToResult (chunk : Chunk) (s : Settled Review) : ChunkResult :=
  match s with
  | .fulfilled value => ⟨chunk, value⟩
  | .rejected reason => ⟨chunk, failureReview reason⟩

/-- The batching loop `for (i = 0; i < chunks.length; i += 3)`, with fuel
bounded by the list length. -/
def toBatchesAux {α : Type} : Nat → List α → List (List α)
  | 0, _ => []
  | _ + 1, [] => []
  | fuel + 1, c :: rest =>
    (c :: rest).take 3 :: toBatchesAux fuel ((c :: rest).drop 3)

/-- Slice a list into batches of three, preserving order. -/
def toBatches {α : Type} (l : List α) : List (List α) :=
  toBatchesAux l.length l

/-- `Promise.allSettled` resolves with the outcomes placed at the array
positions of their promises, regardless of the order in which the promises
settle — positionally, it is the identity on the settled outcomes. -/
def allSettledByPosition (results : List (Settled Review)) :
    List (Settled Review) := results

/-- Model of `reviewMultipleChunks(chunks, prContext)`. -/
def reviewMultipleChunks (call : Chunk → Settled Review)
    (chunks : List Chunk) : List ChunkResult :=
  (toBatches chunks).flatMap
    (fun batch =>
      List.zipWith settleToResult batch (allSettledByPosition (batch.map call)))

/-- Explicit event-loop model of `Promise.allSettled` within one batch: the
slots start empty and each settlement, processed in completion order
`order`, writes its outcome into the slot of its own index. -/
def fillByOrder (results : List (Settled Review)) (order : List Nat) :
    List (Option (Settled Review)) :=
  order.foldl
    (fun acc i =>
      match results.get? i with
      | some v => acc.set i (some v)
      | none => acc)
    (List.replicate results.length none)

/-- The settled outcomes of one batch as assembled under completion order
`order`. -/
def allSettledOrdered (results : List (Settled Review)) (order : List Nat) :
    List (Settled Review) :=
  (fillByOrder results order).reduceOption

/-- `reviewMultipleChunks` with an explicit completion order per batch. -/
def reviewMultipleChunksOrdered (call : Chunk → Settled Review)
    (chunks : List Chunk) (orders : List (List Nat)) : List ChunkResult :=
  (List.zipWith
    (fun batch ord =>
      List.zipWith settleToResult batch (allSettledOrdered (batch.map call) ord))
    (toBatches chunks) orders).flatten

/-! ## Orchestrator test fixtures and witnesses -/

/-- A minimal chunk used by the orchestrator witnesses, tagged by its
`newStartLine`. -/
def testChunk (k : Nat) : Chunk :=
  ⟨none, some "f.js", "modified", k, 1, k, 1, [], ⟨[], [], [], 0, false⟩, [],
   "pending"⟩

/-- Four chunks: two batches of sizes three and one. -/
def wChunks : List Chunk := [testChunk 1, testChunk 2, testChunk 3, testChunk 4]

/-- A successful review outcome used by the fixtures. -/
def okReview : Review := ⟨true, none, [], some "good", [], []⟩

/-- A call that rejects on the second chunk and fulfils the others. -/
def wCall : Chunk → Settled Review := fun c =>
  if c.newStartLine == 2 then Settled.rejected "boom"
  else Settled.fulfilled okReview

/-- Completion orders: the first batch settles as 2, 0, 1; the second as
0. -/
def wOrders : List (List Nat) := [[2, 0, 1], [0]]

/-! ## Byte-length facts about the crypto model -/

theorem sha256Bytes_length (msg : List Nat) : (sha256Bytes msg).length = 32 := by
  simp [sha256Bytes, word4Bytes]

theorem hmacSha256_length (key msg : List Nat) :
    (hmacSha256 key msg).length = 32 := by
  unfold hmacSha256
  exact sha256Bytes_length _

theorem hexDigitChar_toNat_lt (n : Nat) : (hexDigitChar n).toNat < 128 := by
  by_cases h : n < 16
  · interval_cases n <;> decide
  · simp only [hexDigitChar, if_neg (by omega : ¬ n = 0), if_neg (by omega : ¬ n = 1),
      if_neg (by omega : ¬ n = 2), if_neg (by omega : ¬ n = 3), if_neg (by omega : ¬ n = 4),
      if_neg (by omega : ¬ n = 5), if_neg (by omega : ¬ n = 6), if_neg (by omega : ¬ n = 7),
      if_neg (by omega : ¬ n = 8), if_neg (by omega : ¬ n = 9), if_neg (by omega : ¬ n = 10),
      if_neg (by omega : ¬ n = 11), if_neg (by omega : ¬ n = 12), if_neg (by omega : ¬ n = 13),
      if_neg (by omega : ¬ n = 14), if_neg (by omega : ¬ n = 15)]
    decide

theorem utf8EncodeChar_hexDigit (n : Nat) :
    utf8EncodeChar (hexDigitChar n) = [(hexDigitChar n).toNat] := by
  unfold utf8EncodeChar
  simp [hexDigitChar_toNat_lt n]

theorem byteLen_bytesToHex (bs : List Nat) :
    byteLen (bytesToHex bs) = 2 * bs.length := by
  induction bs with
  | nil => rfl
  | cons b rest ih =>
    simp only [byteLen, utf8Bytes, bytesToHex] at ih ⊢
    simp only [List.flatMap_cons, hexOfByte, List.cons_append, List.nil_append,
      List.flatMap_append, utf8EncodeChar_hexDigit, List.length_append,
      List.length_cons, List.length_flatMap] at ih ⊢
    omega

theorem byteLen_append (a b : String) :
    byteLen (a ++ b) = byteLen a + byteLen b := by
  simp [byteLen, utf8Bytes, String.data_append]

/-- The expected signature `"sha256=" + hex(hmac)` computed by the verifier
always has UTF-8 byte length 71 (7 prefix bytes plus 64 hex digits). -/
theorem expected_signature_byteLen (sec body : String) :
    byteLen ("sha256=" ++ hmacSha256Hex sec body) = 71 := by
  rw [byteLen_append]
  have h1 : byteLen "sha256=" = 7 := by decide
  have h2 : byteLen (hmacSha256Hex sec body) = 64 := by
    unfold hmacSha256Hex
    rw [byteLen_bytesToHex, hmacSha256_length]
  omega

/-! ## Claims about the verifier and the webhook route -/

/-- C1.  The claim says every inbound webhook request is gated by the
Signature Verifier before dispatch, and a request with a missing or invalid
signature stops with Unauthorized and is never routed to an event handler.
The code contradicts this: the route as wired applies no verifier (the
middleware import is commented out), so a ping request with no signature at
all is routed and answered 200 — even though the verifier itself (which the
repository's own tests expect to gate this route with a 401) would reject
that very request, and the route's outcome is independent of the signature
header altogether. -/
theorem c1_unverified_request_is_dispatched :
    webhookGithubRoute (some "ping") none
        (some ⟨some "Design for failure.", none⟩) =
      RouteOutcome.pingResponse (some "Design for failure.")
    ∧ verifyGitHubSignature (some "test_webhook_secret") none "payload" =
        VerifyResult.unauthorized "缺少GitHub签名"
    ∧ ∀ (et sig sig' : Option String) (body : Option Payload),
        webhookGithubRoute et sig body = webhookGithubRoute et sig' body := by
  refine ⟨rfl, by decide, fun et sig sig' body => rfl⟩

/-- C2, counterexample.  The claim says that for a request carrying a
signature, the verifier never silently succeeds when no secret is
configured.  In the code the no-secret branch returns `next()` before ever
looking at the signature: here a request carrying the signature
`"sha256=deadbeef"` passes straight through. -/
theorem c2_no_secret_counterexample :
    verifyGitHubSignature none (some "sha256=deadbeef") "payload" =
      VerifyResult.next := by
  rfl

/-- C2, amended.  When no webhook secret is configured, the verifier skips
verification entirely and passes every request through (calls `next()`),
even when a signature was supplied; the supplied signature is never
checked. -/
theorem c2_no_secret_skips_verification (signature : Option String)
    (body : String) :
    verifyGitHubSignature none signature body = VerifyResult.next := by
  rfl

/-- C3.  The claim says a provided signature whose length differs from the
expected `"sha256=" + hex` signature fails closed with Unauthorized and
never causes a throw.  In the code there is no length pre-check:
`crypto.timingSafeEqual` is invoked on the two different-length buffers and
throws, and the `catch` block answers 500 (Internal Server Error), not 401.
This evaluates the verifier at the exact signature used by the repository's
own test suite (which expects 401 for it). -/
theorem c3_length_mismatch_yields_internal_error :
    verifyGitHubSignature (some "test_webhook_secret")
        (some "sha256=invalid_signature") "payload" =
      VerifyResult.serverError "签名验证失败" := by
  have h24 : byteLen "sha256=invalid_signature" = 24 := by decide
  have h71 :
      byteLen ("sha256=" ++ hmacSha256Hex "test_webhook_secret" "payload") =
        71 := expected_signature_byteLen _ _
  unfold verifyGitHubSignature
  rw [if_neg (by decide), if_neg (by decide)]
  simp only [Option.getD]
  rw [if_pos (by rw [h24, h71]; omega)]

/-! ## Claims about the parser: concrete parts -/

/-- C4, counterexample.  The claim says a malformed `@@` header is silently
ignored: no Chunk is produced for it and the remaining Chunks are the same
as if the header were correctly skipped.  In the code the malformed header
flushes the open hunk early but leaves it current, so the trailing `+y` line
is appended to the already-flushed hunk and the hunk is flushed a second
time: the diff with the malformed header yields two Chunks (the second
repeating the `x` change), while the same diff without that header yields
one. -/
theorem c4_malformed_header_counterexample :
    (parseDiffToChunks diffMalformedHeader).length = 2
    ∧ (parseDiffToChunks diffMalformedHeaderSkipped).length = 1
    ∧ (parseDiffToChunks diffMalformedHeader).map
        (fun c => c.changes.map (·.content)) = [["x"], ["x", "y"]] := by
  refine ⟨by decide, by decide, by decide⟩

/-- C10.  Scenario A: parsing a diff with one added file (`--- /dev/null`,
`+++ b/foo.txt`) and one hunk of three `+` lines yields exactly one Chunk
with fileStatus `"added"`, three addedLines, totalChanges 3 and
isSignificant false; and for every change list, `isSignificant` is true
exactly when `totalChanges > 5`. -/
theorem c10_scenario_added_file :
    (parseDiffToChunks diffScenarioA).map
        (fun c => (c.fileStatus, c.context.addedLines.length,
          c.context.totalChanges, c.context.isSignificant)) =
      [("added", 3, 3, false)]
    ∧ ∀ changes : List Change,
        (extractHunkContext changes).isSignificant =
          decide ((extractHunkContext changes).totalChanges > 5) := by
  exact ⟨by decide, fun changes => rfl⟩

/-- C7, counterexample.  The claim says the emitted `lineNumber` equals
`newLineNumber` whenever that value is defined.  JavaScript `||` also
discards a defined value of `0`: for the hunk header `@@ -5 +0 @@`, the
context line has `newLineNumber = 0` (defined) but the emitted `lineNumber`
is `5`, the old line number. -/
theorem c7_zero_line_number_counterexample :
    (parseDiffToChunks diffZeroNewStart).map
        (fun c => c.changes.map
          (fun ch => (ch.lineNumber, ch.oldLineNumber, ch.newLineNumber))) =
      [[(5, some 5, some 0)]] := by
  decide

/-- C8, counterexample.  The claim says that while a hunk is open, every
line starting with a character other than `+`/`-` is recorded as a context
change consuming both counters.  In the code only lines starting with `+`,
`-` or a space are recorded at all: the stray line `x` between the two
context lines is skipped entirely — it produces no change and moves neither
counter (the following context line gets line numbers 2/2, not 3/3), so the
hunk ends with two changes instead of three. -/
theorem c8_stray_line_counterexample :
    (parseDiffToChunks diffStrayLine).map
        (fun c => c.changes.map
          (fun ch => (ch.type, ch.oldLineNumber, ch.newLineNumber))) =
      [[("normal", some 1, some 1), ("normal", some 2, some 2)]] := by
  decide

/-! ## Step-level facts about the parser loop -/

theorem listStartsWith_atat {line : List Char}
    (h : listStartsWith ("@@".data) line = true) :
    ∃ rest, line = '@' :: '@' :: rest := by
  have hd : "@@".data = ['@', '@'] := rfl
  rw [hd] at h
  rcases line with _ | ⟨c, _ | ⟨d, rest⟩⟩
  · simp [listStartsWith] at h
  · simp [listStartsWith] at h
  · simp only [listStartsWith, Bool.and_eq_true, decide_eq_true_eq] at h
    obtain ⟨rfl, rfl, -⟩ := h
    exact ⟨rest, rfl⟩

/-- C4, amended.  A line starting with `@@` that fails the hunk-header
pattern raises no error and opens no new hunk, but it is not without
effect: it flushes any in-progress (file, hunk) pair into a Chunk at that
point and leaves the previous hunk current with its counters untouched (so
later content lines are appended to the already-flushed hunk, which is then
flushed again).  Only when no hunk is open is the malformed header ignored
with no effect at all. -/
theorem c4_malformed_header_flushes_and_keeps_hunk (s : ParseState)
    (line : List Char)
    (hat : listStartsWith ("@@".data) line = true)
    (hmatch : hunkHeaderMatch line = none) :
    parseStep s line = { s with chunks := flushChunks s }
    ∧ (s.currentHunk = none → parseStep s line = s) := by
  obtain ⟨rest, rfl⟩ := listStartsWith_atat hat
  have e1 : listStartsWith ("diff --git ".data) ('@' :: '@' :: rest) = false := rfl
  have e2 : listStartsWith ("--- ".data) ('@' :: '@' :: rest) = false := rfl
  have e3 : listStartsWith ("+++ ".data) ('@' :: '@' :: rest) = false := rfl
  constructor
  · unfold parseStep
    simp [e1, e2, e3, hat, hmatch]
  · intro hnone
    cases s with
    | mk chunks currentFile currentHunk oldLN newLN =>
      simp only [ParseState.mk.injEq] at hnone ⊢
      subst hnone
      unfold parseStep
      simp [e1, e2, e3, hat, hmatch, flushChunks]

/-- C8, amended.  While a hunk is open, a line that is not a file-boundary,
path, or hunk-header line is classified by its first character: `+` is
recorded as an added change consuming (then incrementing) only the new-line
counter, `-` as a deleted change consuming only the old-line counter, and a
leading space as a context change consuming and incrementing both; every
other line (empty, or starting with any other character) is skipped
entirely — no change is recorded and neither counter moves. -/
theorem c8_in_hunk_line_classification (s : ParseState) (h : Hunk)
    (line : List Char)
    (hh : s.currentHunk = some h)
    (h1 : listStartsWith ("diff --git ".data) line = false)
    (h2 : listStartsWith ("--- ".data) line = false)
    (h3 : listStartsWith ("+++ ".data) line = false)
    (h4 : listStartsWith ("@@".data) line = false) :
    parseStep s line =
      if listStartsWith ['+'] line then
        recordChange s h (addedChange s line) 0 1
      else if listStartsWith ['-'] line then
        recordChange s h (deletedChange s line) 1 0
      else if listStartsWith [' '] line then
        recordChange s h (contextChange s line) 1 1
      else s := by
  unfold parseStep
  rw [h1, h2, h3, h4]
  simp only [Bool.false_eq_true, if_false, hh]
  rcases hb1 : listStartsWith ['+'] line with _ | _
  · rcases hb2 : listStartsWith ['-'] line with _ | _
    · rcases hb3 : listStartsWith [' '] line with _ | _
      · simp [hb1, hb2, hb3]
      · simp [hb1, hb2, hb3, recordChange, contextChange]
    · simp [hb1, hb2, recordChange, deletedChange]
  · simp [hb1, recordChange, addedChange]

theorem c4_malformed_header_flushes_and_keeps_hunk_witness :
    parseStep wState ("@@ bad @@".data) =
      { wState with chunks := flushChunks wState }
    ∧ (wState.currentHunk = none →
        parseStep wState ("@@ bad @@".data) = wState) :=
  c4_malformed_header_flushes_and_keeps_hunk wState ("@@ bad @@".data)
    (by decide) (by decide)

theorem c8_in_hunk_line_classification_witness :
    parseStep wState (" a".data) =
      if listStartsWith ['+'] (" a".data) then
        recordChange wState wHunk (addedChange wState (" a".data)) 0 1
      else if listStartsWith ['-'] (" a".data) then
        recordChange wState wHunk (deletedChange wState (" a".data)) 1 0
      else if listStartsWith [' '] (" a".data) then
        recordChange wState wHunk (contextChange wState (" a".data)) 1 1
      else wState :=
  c8_in_hunk_line_classification wState wHunk (" a".data) rfl
    (by decide) (by decide) (by decide) (by decide)

theorem flattenChanges_get? (ns : Nat) (l : List Change) :
    ∀ (j i : Nat),
      (flattenChanges ns j l).get? i = (l.get? i).map (mkFlatChange ns (j + i)) := by
  induction l with
  | nil => intro j i; simp [flattenChanges]
  | cons c rest ih =>
    intro j i
    cases i with
    | zero => simp [flattenChanges]
    | succ i2 =>
      simp only [flattenChanges, List.get?_cons_succ, ih (j + 1) i2]
      have : j + 1 + i2 = j + (i2 + 1) := by omega
      rw [this]

theorem flattenChanges_filterMap_old (ns : Nat) (l : List Change) :
    ∀ j : Nat,
      (flattenChanges ns j l).filterMap FlatChange.oldLineNumber = oldSeq l := by
  induction l with
  | nil => intro j; simp [flattenChanges, oldSeq]
  | cons c rest ih =>
    intro j
    simp only [flattenChanges, oldSeq, List.filterMap_cons] at ih ⊢
    cases hc : c.oldLineNumber <;> simp [mkFlatChange, hc, ih (j + 1)]

theorem flattenChanges_filterMap_new (ns : Nat) (l : List Change) :
    ∀ j : Nat,
      (flattenChanges ns j l).filterMap FlatChange.newLineNumber = newSeq l := by
  induction l with
  | nil => intro j; simp [flattenChanges, newSeq]
  | cons c rest ih =>
    intro j
    simp only [flattenChanges, newSeq, List.filterMap_cons] at ih ⊢
    cases hc : c.newLineNumber <;> simp [mkFlatChange, hc, ih (j + 1)]

theorem createChunk_flatOk (f : FileInfo) (h : Hunk) :
    ChunkFlatOk (createChunk f h) := by
  intro i fc hfc
  have : (createChunk f h).changes.get? i =
      (h.changes.get? i).map (mkFlatChange h.newStartLine (0 + i)) :=
    flattenChanges_get? h.newStartLine h.changes 0 i
  rw [hfc] at this
  cases hg : h.changes.get? i with
  | none => rw [hg] at this; simp at this
  | some c =>
    rw [hg] at this
    simp only [Option.map_some', Option.some.injEq] at this
    subst this
    simp [mkFlatChange, createChunk]

theorem createChunk_mono (f : FileInfo) (h : Hunk) (o n : Nat)
    (hh : HunkOk h o n) : ChunkMono (createChunk f h) := by
  obtain ⟨⟨hco, -⟩, ⟨hcn, -⟩⟩ := hh
  constructor
  · show List.Chain' (· < ·)
      ((flattenChanges h.newStartLine 0 h.changes).filterMap FlatChange.oldLineNumber)
    rw [flattenChanges_filterMap_old]
    exact hco
  · show List.Chain' (· < ·)
      ((flattenChanges h.newStartLine 0 h.changes).filterMap FlatChange.newLineNumber)
    rw [flattenChanges_filterMap_new]
    exact hcn

theorem createChunk_ok (f : FileInfo) (h : Hunk) (o n : Nat)
    (hh : HunkOk h o n) : ChunkOk (createChunk f h) :=
  ⟨createChunk_flatOk f h, createChunk_mono f h o n hh⟩

theorem flushChunks_ok (s : ParseState) (hs : StateOk s) :
    ∀ c ∈ flushChunks s, ChunkOk c := by
  obtain ⟨hchunks, hhunk⟩ := hs
  unfold flushChunks
  split
  · rename_i h f hcur hfile
    intro c hc
    rcases List.mem_append.mp hc with hin | hin
    · exact hchunks c hin
    · rw [List.mem_singleton.mp hin]
      exact createChunk_ok f h _ _ (hhunk h hcur)
  · exact hchunks

theorem chain'_append_lt {l : List Nat} {v : Nat}
    (hc : List.Chain' (· < ·) l) (hb : ∀ x ∈ l, x < v) :
    List.Chain' (· < ·) (l ++ [v]) := by
  refine List.Chain'.append hc (List.chain'_singleton v) ?_
  intro x hx y hy
  obtain ⟨hne, rfl⟩ := List.mem_getLast?_eq_getLast hx
  simp only [List.head?_cons, Option.mem_def, Option.some.injEq] at hy
  subst hy
  exact hb _ (List.getLast_mem hne)

theorem bound_append {l : List Nat} {v : Nat} (hb : ∀ x ∈ l, x < v) :
    ∀ x ∈ l ++ [v], x < v + 1 := by
  intro x hx
  rcases List.mem_append.mp hx with hin | hin
  · exact Nat.lt_succ_of_lt (hb x hin)
  · rw [List.mem_singleton.mp hin]
    exact Nat.lt_succ_self v

theorem hunkOk_append_add {h : Hunk} {o n : Nat} (hh : HunkOk h o n)
    (content : String) :
    HunkOk { h with changes := h.changes ++ [⟨"add", content, none, some n⟩] }
      o (n + 1) := by
  obtain ⟨⟨hco, hbo⟩, ⟨hcn, hbn⟩⟩ := hh
  have hsingO : List.filterMap Change.oldLineNumber
      [(⟨"add", content, none, some n⟩ : Change)] = [] := rfl
  have hsingN : List.filterMap Change.newLineNumber
      [(⟨"add", content, none, some n⟩ : Change)] = [n] := rfl
  refine ⟨⟨?_, ?_⟩, ⟨?_, ?_⟩⟩
  · show List.Chain' (· < ·) (oldSeq (h.changes ++ [⟨"add", content, none, some n⟩]))
    unfold oldSeq
    rw [List.filterMap_append, hsingO, List.append_nil]
    exact hco
  · show ∀ v ∈ oldSeq (h.changes ++ [⟨"add", content, none, some n⟩]), v < o
    unfold oldSeq
    rw [List.filterMap_append, hsingO, List.append_nil]
    exact hbo
  · show List.Chain' (· < ·) (newSeq (h.changes ++ [⟨"add", content, none, some n⟩]))
    unfold newSeq
    rw [List.filterMap_append, hsingN]
    exact chain'_append_lt hcn hbn
  · show ∀ v ∈ newSeq (h.changes ++ [⟨"add", content, none, some n⟩]), v < n + 1
    unfold newSeq
    rw [List.filterMap_append, hsingN]
    exact bound_append hbn

theorem hunkOk_append_del {h : Hunk} {o n : Nat} (hh : HunkOk h o n)
    (content : String) :
    HunkOk { h with changes := h.changes ++ [⟨"del", content, some o, none⟩] }
      (o + 1) n := by
  obtain ⟨⟨hco, hbo⟩, ⟨hcn, hbn⟩⟩ := hh
  have hsingO : List.filterMap Change.oldLineNumber
      [(⟨"del", content, some o, none⟩ : Change)] = [o] := rfl
  have hsingN : List.filterMap Change.newLineNumber
      [(⟨"del", content, some o, none⟩ : Change)] = [] := rfl
  refine ⟨⟨?_, ?_⟩, ⟨?_, ?_⟩⟩
  · show List.Chain' (· < ·) (oldSeq (h.changes ++ [⟨"del", content, some o, none⟩]))
    unfold oldSeq
    rw [List.filterMap_append, hsingO]
    exact chain'_append_lt hco hbo
  · show ∀ v ∈ oldSeq (h.changes ++ [⟨"del", content, some o, none⟩]), v < o + 1
    unfold oldSeq
    rw [List.filterMap_append, hsingO]
    exact bound_append hbo
  · show List.Chain' (· < ·) (newSeq (h.changes ++ [⟨"del", content, some o, none⟩]))
    unfold newSeq
    rw [List.filterMap_append, hsingN, List.append_nil]
    exact hcn
  · show ∀ v ∈ newSeq (h.changes ++ [⟨"del", content, some o, none⟩]), v < n
    unfold newSeq
    rw [List.filterMap_append, hsingN, List.append_nil]
    exact hbn

theorem hunkOk_append_normal {h : Hunk} {o n : Nat} (hh : HunkOk h o n)
    (content : String) :
    HunkOk { h with changes := h.changes ++ [⟨"normal", content, some o, some n⟩] }
      (o + 1) (n + 1) := by
  obtain ⟨⟨hco, hbo⟩, ⟨hcn, hbn⟩⟩ := hh
  have hsingO : List.filterMap Change.oldLineNumber
      [(⟨"normal", content, some o, some n⟩ : Change)] = [o] := rfl
  have hsingN : List.filterMap Change.newLineNumber
      [(⟨"normal", content, some o, some n⟩ : Change)] = [n] := rfl
  refine ⟨⟨?_, ?_⟩, ⟨?_, ?_⟩⟩
  · show List.Chain' (· < ·) (oldSeq (h.changes ++ [⟨"normal", content, some o, some n⟩]))
    unfold oldSeq
    rw [List.filterMap_append, hsingO]
    exact chain'_append_lt hco hbo
  · show ∀ v ∈ oldSeq (h.changes ++ [⟨"normal", content, some o, some n⟩]), v < o + 1
    unfold oldSeq
    rw [List.filterMap_append, hsingO]
    exact bound_append hbo
  · show List.Chain' (· < ·) (newSeq (h.changes ++ [⟨"normal", content, some o, some n⟩]))
    unfold newSeq
    rw [List.filterMap_append, hsingN]
    exact chain'_append_lt hcn hbn
  · show ∀ v ∈ newSeq (h.changes ++ [⟨"normal", content, some o, some n⟩]), v < n + 1
    unfold newSeq
    rw [List.filterMap_append, hsingN]
    exact bound_append hbn

theorem parseStep_ok (s : ParseState) (line : List Char) (hs : StateOk s) :
    StateOk (parseStep s line) := by
  obtain ⟨hchunks, hhunk⟩ := hs
  have hflush : ∀ c ∈ flushChunks s, ChunkOk c :=
    flushChunks_ok s ⟨hchunks, hhunk⟩
  unfold parseStep
  split
  · exact ⟨hflush, fun h hEq => by simp at hEq⟩
  split
  · split
    · exact ⟨hchunks, hhunk⟩
    · dsimp only
      split
      · exact ⟨hchunks, hhunk⟩
      split
      · exact ⟨hchunks, hhunk⟩
      · exact ⟨hchunks, hhunk⟩
  split
  · split
    · exact ⟨hchunks, hhunk⟩
    · dsimp only
      split
      · exact ⟨hchunks, hhunk⟩
      split
      · exact ⟨hchunks, hhunk⟩
      · exact ⟨hchunks, hhunk⟩
  split
  · split
    · refine ⟨hflush, ?_⟩
      intro h2 hEq
      simp only [Option.some.injEq] at hEq
      subst hEq
      refine ⟨⟨?_, ?_⟩, ⟨?_, ?_⟩⟩ <;> simp [oldSeq, newSeq]
    · exact ⟨hflush, hhunk⟩
  · split
    · exact ⟨hchunks, hhunk⟩
    · rename_i h hcur
      split
      · rename_i hpre
        refine ⟨hchunks, ?_⟩
        intro h2 hEq
        have hOk := hhunk h hcur
        rcases hb1 : listStartsWith ['+'] line with _ | _
        · rcases hb2 : listStartsWith ['-'] line with _ | _
          · rcases hb3 : listStartsWith [' '] line with _ | _
            · rw [hb1, hb2, hb3] at hpre; simp at hpre
            · simp only [hb1, hb2, hb3, Bool.false_eq_true, if_false, if_true,
                ne_eq, Option.some.injEq, reduceIte] at hEq ⊢
              rw [← hEq]
              simpa using hunkOk_append_normal hOk (String.mk (line.drop 1))
          · simp only [hb1, hb2, Bool.false_eq_true, if_false, if_true,
              ne_eq, Option.some.injEq, reduceIte] at hEq ⊢
            rw [← hEq]
            simpa using hunkOk_append_del hOk (String.mk (line.drop 1))
        · simp only [hb1, if_true, ne_eq, Option.some.injEq, reduceIte] at hEq ⊢
          rw [← hEq]
          simpa using hunkOk_append_add hOk (String.mk (line.drop 1))
      · exact ⟨hchunks, hhunk⟩

theorem foldSteps_ok (lines : List (List Char)) :
    ∀ s : ParseState, StateOk s → StateOk (lines.foldl parseStep s) := by
  induction lines with
  | nil => exact fun s hs => hs
  | cons line rest ih =>
    intro s hs
    exact ih (parseStep s line) (parseStep_ok s line hs)

/-- Every chunk the parser ever returns satisfies both maintained
properties. -/
theorem parse_chunk_ok (text : String) :
    ∀ c ∈ parseDiffToChunks text, ChunkOk c := by
  unfold parseDiffToChunks
  have hinit : StateOk ⟨[], none, none, 0, 0⟩ := by
    refine ⟨by simp, ?_⟩
    intro h hEq
    simp at hEq
  exact flushChunks_ok _ (foldSteps_ok (splitNl text.data) _ hinit)

/-- C9.  Within every chunk produced by the parser, the sequence of non-null
`oldLineNumber` values over the ordered changes is strictly increasing, and
likewise the sequence of non-null `newLineNumber` values. -/
theorem c9_line_numbers_strictly_increase (text : String) (c : Chunk)
    (hc : c ∈ parseDiffToChunks text) :
    List.Chain' (· < ·) (c.changes.filterMap FlatChange.oldLineNumber) ∧
    List.Chain' (· < ·) (c.changes.filterMap FlatChange.newLineNumber) :=
  (parse_chunk_ok text c hc).2

theorem c9_line_numbers_strictly_increase_witness :
    List.Chain' (· < ·)
      (((parseDiffToChunks diffScenarioA).get ⟨0, by decide⟩).changes.filterMap
        FlatChange.oldLineNumber) ∧
    List.Chain' (· < ·)
      (((parseDiffToChunks diffScenarioA).get ⟨0, by decide⟩).changes.filterMap
        FlatChange.newLineNumber) :=
  c9_line_numbers_strictly_increase diffScenarioA _ (List.get_mem _ _ _)

/-- C7, amended.  For every parsed chunk and change at index `i`, the
emitted `lineNumber` is `newLineNumber` when that value is defined and
nonzero, otherwise `oldLineNumber` when that is defined and nonzero,
otherwise the positional fallback `newStartLine + i`: the JavaScript `||`
chain treats a zero line number exactly like an undefined one. -/
theorem c7_line_number_truthy_fallback (text : String) (c : Chunk)
    (hc : c ∈ parseDiffToChunks text) (i : Nat) (fc : FlatChange)
    (hfc : c.changes.get? i = some fc) :
    fc.lineNumber =
      jsOrNat fc.newLineNumber (jsOrNat fc.oldLineNumber (c.newStartLine + i)) :=
  (parse_chunk_ok text c hc).1 i fc hfc

theorem c7_line_number_truthy_fallback_witness :
    wFlatC7.lineNumber =
      jsOrNat wFlatC7.newLineNumber (jsOrNat wFlatC7.oldLineNumber
        (((parseDiffToChunks diffZeroNewStart).get ⟨0, by decide⟩).newStartLine + 0)) :=
  c7_line_number_truthy_fallback diffZeroNewStart _ (List.get_mem _ _ _) 0
    wFlatC7 (by decide)

theorem tryHashRun_pos {k : Nat} {cs : List Char} {m : Nat} (hk : 0 < k)
    (h : tryHashRun k cs = some m) : 0 < m := by
  unfold tryHashRun at h
  split at h
  · dsimp only at h
    split at h
    · simp only [Option.some.injEq] at h
      omega
    · exact absurd h (by simp)
  · exact absurd h (by simp)

theorem matchHashRun_pos {cs : List Char} {m : Nat}
    (h : matchHashRun cs = some m) : 0 < m := by
  unfold matchHashRun at h
  split at h
  · rename_i h3
    cases h
    exact tryHashRun_pos (by omega) h3
  · split at h
    · rename_i h2
      cases h
      exact tryHashRun_pos (by omega) h2
    · exact tryHashRun_pos (by omega) h

/-! ## Orchestrator lemmas -/

theorem settleToResult_chunk (c : Chunk) (r : Settled Review) :
    (settleToResult c r).chunk = c := by
  cases r <;> rfl

theorem toBatchesAux_flatten {α : Type} :
    ∀ (fuel : Nat) (l : List α), l.length ≤ fuel →
      (toBatchesAux fuel l).flatten = l := by
  intro fuel
  induction fuel with
  | zero =>
    intro l hl
    rw [List.length_eq_zero.mp (Nat.le_zero.mp hl)]
    rfl
  | succ fuel ih =>
    intro l hl
    cases l with
    | nil => rfl
    | cons c rest =>
      show ((c :: rest).take 3 :: toBatchesAux fuel ((c :: rest).drop 3)).flatten
          = c :: rest
      rw [List.flatten_cons, ih ((c :: rest).drop 3)
        (by rw [List.length_drop]; simp only [List.length_cons] at hl ⊢; omega)]
      exact List.take_append_drop 3 (c :: rest)

theorem toBatches_flatten {α : Type} (l : List α) : (toBatches l).flatten = l :=
  toBatchesAux_flatten l.length l (Nat.le_refl _)

theorem zipWith_map_right_self {α β γ : Type} (f : α → β → γ) (g : α → β) :
    ∀ l : List α, List.zipWith f l (l.map g) = l.map (fun a => f a (g a)) := by
  intro l
  induction l with
  | nil => rfl
  | cons a rest ih => simp [ih]

/-- The orchestrator is, observationally, one review call per chunk in input
order: the batching is invisible in the result sequence. -/
theorem reviewMultipleChunks_eq_map (call : Chunk → Settled Review)
    (chunks : List Chunk) :
    reviewMultipleChunks call chunks =
      chunks.map (fun c => settleToResult c (call c)) := by
  unfold reviewMultipleChunks allSettledByPosition
  simp only [zipWith_map_right_self settleToResult call]
  rw [List.flatMap_def, ← List.map_flatten, toBatches_flatten]

theorem reduceOption_map_some {α : Type} :
    ∀ l : List α, (l.map some).reduceOption = l := by
  intro l
  induction l with
  | nil => rfl
  | cons a rest ih => simp [List.reduceOption_cons_of_some, ih]

theorem fillByOrder_aux_length (results : List (Settled Review)) :
    ∀ (order : List Nat) (acc : List (Option (Settled Review))),
      (order.foldl
        (fun acc i =>
          match results.get? i with
          | some v => acc.set i (some v)
          | none => acc) acc).length = acc.length := by
  intro order
  induction order with
  | nil => intro acc; rfl
  | cons j rest ih =>
    intro acc
    rw [List.foldl_cons, ih]
    cases results.get? j <;> simp

theorem fillByOrder_aux_get (results : List (Settled Review)) :
    ∀ (order : List Nat) (acc : List (Option (Settled Review))) (i : Nat),
      acc.length = results.length → i < results.length →
      (i ∈ order ∨ acc.get? i = some (results.get? i)) →
      (order.foldl
        (fun acc i =>
          match results.get? i with
          | some v => acc.set i (some v)
          | none => acc) acc).get? i = some (results.get? i) := by
  intro order
  induction order with
  | nil =>
    intro acc i hlen hi hmem
    rcases hmem with hmem | hacc
    · exact absurd hmem (List.not_mem_nil i)
    · exact hacc
  | cons j rest ih =>
    intro acc i hlen hi hmem
    rw [List.foldl_cons]
    have hstep_len :
        (match results.get? j with
          | some v => acc.set j (some v)
          | none => acc).length = results.length := by
      cases results.get? j <;> simp [hlen]
    by_cases hij : i = j
    · subst hij
      have hv : results.get? i = some (results.get ⟨i, hi⟩) := List.get?_eq_get hi
      refine ih _ i hstep_len hi (Or.inr ?_)
      rw [hv]
      dsimp only
      exact List.get?_set_eq_of_lt _ (by rw [hlen]; exact hi)
    · rcases hmem with hmem | hacc
      · rcases List.mem_cons.mp hmem with hj | hrest
        · exact absurd hj hij
        · exact ih _ i hstep_len hi (Or.inl hrest)
      · refine ih _ i hstep_len hi (Or.inr ?_)
        cases hj : results.get? j with
        | none =>
          exact hacc
        | some v =>
          dsimp only
          rw [List.get?_set_ne _ _ (fun h => hij h.symm)]
          exact hacc

/-- When the completion order covers every index of the batch, the
event-loop model assembles exactly the positional outcome array. -/
theorem fillByOrder_eq (results : List (Settled Review)) (order : List Nat)
    (hcov : ∀ i, i < results.length → i ∈ order) :
    fillByOrder results order = results.map some := by
  apply List.ext
  intro i
  unfold fillByOrder
  by_cases hi : i < results.length
  · rw [fillByOrder_aux_get results order _ i (by simp) hi (Or.inl (hcov i hi))]
    rw [List.get?_map, List.get?_eq_get hi]
    rfl
  · have h1 : (List.foldl
        (fun acc i =>
          match results.get? i with
          | some v => acc.set i (some v)
          | none => acc)
        (List.replicate results.length none) order).get? i = none := by
      apply List.get?_eq_none.mpr
      rw [fillByOrder_aux_length]
      simp only [List.length_replicate]
      omega
    have h2 : (results.map some).get? i = none := by
      apply List.get?_eq_none.mpr
      rw [List.length_map]
      omega
    rw [h1, h2]

theorem allSettledOrdered_eq (results : List (Settled Review))
    (order : List Nat) (hcov : ∀ i, i < results.length → i ∈ order) :
    allSettledOrdered results order = results := by
  unfold allSettledOrdered
  rw [fillByOrder_eq results order hcov]
  exact reduceOption_map_some results

/-- Keyed by batch, an ordered run of the orchestrator equals the
positional one as soon as every batch completion order covers its batch. -/
theorem zipWith_ordered_eq (call : Chunk → Settled Review) :
    ∀ (batches : List (List Chunk)) (orders : List (List Nat)),
      List.Forall₂ (fun batch ord => ∀ i, i < batch.length → i ∈ ord)
        batches orders →
      (List.zipWith
        (fun batch ord =>
          List.zipWith settleToResult batch (allSettledOrdered (batch.map call) ord))
        batches orders).flatten =
      batches.flatMap
        (fun batch =>
          List.zipWith settleToResult batch (allSettledByPosition (batch.map call))) := by
  intro batches orders hfa
  induction hfa with
  | nil => rfl
  | @cons batch ord batchesRest ordersRest hpair hrest ih =>
    rw [List.zipWith_cons_cons, List.flatten_cons, List.flatMap_cons, ih]
    have : allSettledOrdered (batch.map call) ord = batch.map call := by
      apply allSettledOrdered_eq
      intro i hi
      rw [List.length_map] at hi
      exact hpair i hi
    rw [this]
    rfl

/-! ## Claims about the orchestrator -/

/-- C5.  `reviewMultipleChunks` returns exactly one `(chunk, review)` result
per input chunk, with the i-th result carrying the i-th input chunk,
regardless of the order in which the per-chunk calls complete: running the
orchestrator under any completion order that settles every call of every
batch produces the same result sequence as the positional model, and the
projection of the results onto their chunks is the input sequence itself. -/
theorem c5_orchestrator_preserves_order (chunks : List Chunk)
    (call : Chunk → Settled Review) (orders : List (List Nat))
    (hcov : List.Forall₂ (fun batch ord => ∀ i, i < batch.length → i ∈ ord)
      (toBatches chunks) orders) :
    reviewMultipleChunksOrdered call chunks orders =
      reviewMultipleChunks call chunks
    ∧ (reviewMultipleChunks call chunks).map ChunkResult.chunk = chunks := by
  constructor
  · exact zipWith_ordered_eq call (toBatches chunks) orders hcov
  · rw [reviewMultipleChunks_eq_map, List.map_map]
    have : (ChunkResult.chunk ∘ fun c => settleToResult c (call c)) = id :=
      funext fun c => settleToResult_chunk c (call c)
    rw [this, List.map_id]

/-- C6.  A per-chunk review call that is rejected with message `m` is
captured and converted to the failure outcome
`{success: false, error: m, aiComments: []}` at its own position; the
orchestrator still returns one result per chunk, every other position
depends only on its own call (so a failing sibling — in the same batch or
another — never alters it), and the inner `reviewCodeChunk` likewise
converts a thrown API call into the same failure outcome instead of
propagating the error. -/
theorem c6_per_chunk_failure_isolated (chunks : List Chunk)
    (call : Chunk → Settled Review) (i : Nat) (hi : i < chunks.length)
    (m : String)
    (hfail : call (chunks.get ⟨i, hi⟩) = Settled.rejected m) :
    (reviewMultipleChunks call chunks).get? i =
      some ⟨chunks.get ⟨i, hi⟩, failureReview m⟩
    ∧ (reviewMultipleChunks call chunks).length = chunks.length
    ∧ (∀ (j : Nat) (hj : j < chunks.length) (call' : Chunk → Settled Review),
        call' (chunks.get ⟨j, hj⟩) = call (chunks.get ⟨j, hj⟩) →
        (reviewMultipleChunks call' chunks).get? j =
          (reviewMultipleChunks call chunks).get? j)
    ∧ (∀ (apiKey : String) (chunk : Chunk), apiKey ≠ "" →
        reviewCodeChunk (some apiKey) (Except.error m) chunk =
          failureReview m) := by
  refine ⟨?_, ?_, ?_, ?_⟩
  · rw [reviewMultipleChunks_eq_map, List.get?_map, List.get?_eq_get hi]
    dsimp only [Option.map_some']
    rw [hfail]
    rfl
  · rw [reviewMultipleChunks_eq_map, List.length_map]
  · intro j hj call' hagree
    rw [reviewMultipleChunks_eq_map, reviewMultipleChunks_eq_map,
      List.get?_map, List.get?_map, List.get?_eq_get hj]
    dsimp only [Option.map_some']
    rw [hagree]
  · intro apiKey chunk hkey
    unfold reviewCodeChunk
    simp [jsFalsy, hkey]

theorem c5_orchestrator_preserves_order_witness :
    reviewMultipleChunksOrdered wCall wChunks wOrders =
      reviewMultipleChunks wCall wChunks
    ∧ (reviewMultipleChunks wCall wChunks).map ChunkResult.chunk = wChunks :=
  c5_orchestrator_preserves_order wChunks wCall wOrders
    (by
      rw [(rfl :
        toBatches wChunks = [[testChunk 1, testChunk 2, testChunk 3], [testChunk 4]])]
      refine List.Forall₂.cons (by decide) (List.Forall₂.cons (by decide)
        List.Forall₂.nil))

theorem c6_per_chunk_failure_isolated_witness :
    (reviewMultipleChunks wCall wChunks).get? 1 =
      some ⟨wChunks.get ⟨1, by decide⟩, failureReview "boom"⟩
    ∧ (reviewMultipleChunks wCall wChunks).length = wChunks.length
    ∧ (∀ (j : Nat) (hj : j < wChunks.length) (call' : Chunk → Settled Review),
        call' (wChunks.get ⟨j, hj⟩) = wCall (wChunks.get ⟨j, hj⟩) →
        (reviewMultipleChunks call' wChunks).get? j =
          (reviewMultipleChunks wCall wChunks).get? j)
    ∧ (∀ (apiKey : String) (chunk : Chunk), apiKey ≠ "" →
        reviewCodeChunk (some apiKey) (Except.error "boom") chunk =
          failureReview "boom") :=
  c6_per_chunk_failure_isolated wChunks wCall 1 (by decide) "boom" (by decide)

end CodeReviewer
